import Mathlib

/-!
Verification of the Tissue-Engineering Alzheimer's gene database front end
(`script.js`): the record search/filter/pagination/export engine and the
nucleotide sequence toolkit, shallowly embedded in Lean.

Strings are modelled as `List Char`; JS field values as `JsValue`
(a string or some non-string value); fallible operations return `Option`.
-/

/-- A JavaScript field value as it can appear in a loaded record:
either a string or some non-string value (which the search predicate
rejects via its `typeof` check and which would not be exportable). -/
inductive JsValue where
  | str (s : List Char)
  | nonString
deriving DecidableEq

/-- One row of the catalog: the 14 optional text fields of the data model.
`none` models an absent (or JSON-null) field. -/
structure GeneRecord where
  gene_name : Option JsValue
  variant : Option JsValue
  disease : Option JsValue
  function : Option JsValue
  ad_mechanism : Option JsValue
  oxidative_stress : Option JsValue
  angiogenesis : Option JsValue
  neural_survival : Option JsValue
  te_relevance : Option JsValue
  scaffold_strategy : Option JsValue
  cell_type : Option JsValue
  growth_factors : Option JsValue
  biomaterial_suggestion : Option JsValue
  regeneration_outcome : Option JsValue
deriving DecidableEq

/-- The field values of a record in their fixed key order, present ones only:
`Object.values(row)`. -/
def recordValues (r : GeneRecord) : List JsValue :=
  [r.gene_name, r.variant, r.disease, r.function, r.ad_mechanism,
   r.oxidative_stress, r.angiogenesis, r.neural_survival, r.te_relevance,
   r.scaffold_strategy, r.cell_type, r.growth_factors,
   r.biomaterial_suggestion, r.regeneration_outcome].filterMap id

/-- `String.prototype.trim()`: strip whitespace from both ends. -/
def trimList (s : List Char) : List Char :=
  ((s.dropWhile Char.isWhitespace).reverse.dropWhile Char.isWhitespace).reverse

/-- JS `hay.includes(needle)`: `needle` occurs contiguously in `hay`. -/
def jsIncludes (hay needle : List Char) : Bool :=
  match hay with
  | [] => needle.isEmpty
  | _ :: t => needle.isPrefixOf hay || jsIncludes t needle

/-- The search term as `performSearch` computes it:
`value.trim().toLowerCase()`. -/
def normalizeQuery (q : List Char) : List Char :=
  (trimList q).map Char.toLower

/-- The per-value test of `performSearch`'s filter callback:
`value && typeof value === 'string' && value.toLowerCase().includes(searchTerm)`. -/
def matchesValue (searchTerm : List Char) (v : JsValue) : Bool :=
  match v with
  | .str s => !s.isEmpty && jsIncludes (s.map Char.toLower) searchTerm
  | .nonString => false

/-- The per-record test of `performSearch`'s filter:
`Object.values(row).some(...)`. -/
def matchesRecord (searchTerm : List Char) (r : GeneRecord) : Bool :=
  (recordValues r).any (matchesValue searchTerm)

/-- The module-level mutable state touched by search and display:
`filteredData` and `currentPage`. -/
structure AppState where
  filteredData : List GeneRecord
  currentPage : Nat
deriving DecidableEq

/-- `const itemsPerPage = 10`. -/
def itemsPerPage : Nat := 10

/-- `Math.ceil(totalItems / pageSize)` over naturals
(`displayResults` line `const totalPages = Math.ceil(...)`). -/
def totalPagesOf (totalItems pageSize : Nat) : Nat :=
  (totalItems + pageSize - 1) / pageSize

/-- The slice `filteredData.slice(startIndex, startIndex + pageSize)`
with `startIndex = (page - 1) * pageSize` (1-based pages). -/
def pageSlice (l : List GeneRecord) (page pageSize : Nat) : List GeneRecord :=
  (l.drop ((page - 1) * pageSize)).take pageSize

/-- What the dynamic content area renders: the prompt-to-search state
(`showEmptyState`), the zero-match state (`No results found`), or a page
of the result table. -/
inductive DisplayState where
  | promptToSearch
  | noResults
  | resultsTable (rows : List GeneRecord) (page totalPages : Nat)
deriving DecidableEq

/-- `displayResults()`: branch on `filteredData.length === 0`, otherwise
render the current page's slice with the computed total page count. -/
def displayResults (st : AppState) : DisplayState :=
  if st.filteredData = [] then .noResults
  else .resultsTable (pageSlice st.filteredData st.currentPage itemsPerPage)
    st.currentPage (totalPagesOf st.filteredData.length itemsPerPage)

/-- `performSearch()`: normalize the query; on an empty term show the
empty state and leave the module state untouched; otherwise filter the
database, reset `currentPage` to 1, and display. -/
def searchStep (q : List Char) (db : List GeneRecord) (st : AppState) :
    AppState × DisplayState :=
  let searchTerm := normalizeQuery q
  if searchTerm = [] then (st, .promptToSearch)
  else
    let fd := db.filter (matchesRecord searchTerm)
    let st' : AppState := ⟨fd, 1⟩
    (st', displayResults st')

-- Helper lemmas about `jsIncludes`.

theorem jsIncludes_infix_iff (hay needle : List Char) :
    jsIncludes hay needle = true ↔ List.IsInfix needle hay := by
  induction hay with
  | nil => simp [jsIncludes, List.isEmpty_iff]
  | cons a t ih =>
    simp [jsIncludes, ih, List.infix_cons_iff, List.isPrefixOf_iff_prefix]

/-- C1: for every non-empty normalized query, `performSearch` keeps exactly
the records with a string-valued field whose case-folded value contains the
trimmed, case-folded query as a substring (absent or non-string fields never
match), preserving the database's original order (stable filter). -/
theorem performSearch_filters_by_substring (q : List Char) (db : List GeneRecord)
    (st : AppState) (h : normalizeQuery q ≠ []) :
    (searchStep q db st).1.filteredData
        = db.filter (matchesRecord (normalizeQuery q)) ∧
    List.Sublist (db.filter (matchesRecord (normalizeQuery q))) db ∧
    (∀ r : GeneRecord, matchesRecord (normalizeQuery q) r = true ↔
      ∃ s : List Char, JsValue.str s ∈ recordValues r ∧
        List.IsInfix (normalizeQuery q) (s.map Char.toLower)) := by
  refine ⟨by simp [searchStep, h], List.filter_sublist db, ?_⟩
  intro r
  unfold matchesRecord
  rw [List.any_eq_true]
  constructor
  · rintro ⟨v, hv, hm⟩
    cases v with
    | str s =>
      simp only [matchesValue, Bool.and_eq_true, Bool.not_eq_true',
        List.isEmpty_eq_false] at hm
      exact ⟨s, hv, (jsIncludes_infix_iff _ _).1 hm.2⟩
    | nonString => simp [matchesValue] at hm
  · rintro ⟨s, hv, hinf⟩
    refine ⟨.str s, hv, ?_⟩
    have hs : s ≠ [] := by
      rintro rfl
      rw [List.map_nil, List.infix_nil] at hinf
      exact h hinf
    simp only [matchesValue, Bool.and_eq_true, Bool.not_eq_true',
      List.isEmpty_eq_false]
    exact ⟨hs, (jsIncludes_infix_iff _ _).2 hinf⟩

/-- Witness for C1 at a concrete query and database. -/
theorem performSearch_filters_by_substring_witness :
    (searchStep ['P', 'o'] [⟨some (.str ['A', 'P', 'O', 'E']), none, none, none,
        none, none, none, none, none, none, none, none, none, none⟩]
        ⟨[], 7⟩).1.filteredData
      = ([⟨some (.str ['A', 'P', 'O', 'E']), none, none, none, none, none, none,
        none, none, none, none, none, none, none⟩] : List GeneRecord).filter
          (matchesRecord (normalizeQuery ['P', 'o'])) :=
  (performSearch_filters_by_substring ['P', 'o'] _ _ (by decide)).1

/-- C2: a query that normalizes to the empty string yields the designated
empty-query (prompt-to-search) state, never the zero-match state, even on an
empty database; a non-empty query with zero matches instead yields the
distinct no-results state. -/
theorem emptySearch_promptState (q : List Char) (db : List GeneRecord)
    (st : AppState) (h : normalizeQuery q = []) :
    (searchStep q db st).2 = DisplayState.promptToSearch ∧
    DisplayState.promptToSearch ≠ DisplayState.noResults ∧
    (∀ q' db' st', normalizeQuery q' ≠ [] →
      db'.filter (matchesRecord (normalizeQuery q')) = [] →
      (searchStep q' db' st').2 = DisplayState.noResults) := by
  refine ⟨by simp [searchStep, h], by simp, ?_⟩
  intro q' db' st' h1 h2
  simp [searchStep, h1, displayResults, h2]

/-- Witness for C2 at the empty query over the empty database. -/
theorem emptySearch_promptState_witness :
    (searchStep [] [] ⟨[], 3⟩).2 = DisplayState.promptToSearch :=
  (emptySearch_promptState [] [] ⟨[], 3⟩ (by decide)).1

/-- C10: every search with a non-empty normalized query resets the current
page to 1; the outcome is independent of the prior state, and the displayed
page is the first `itemsPerPage` records of the new result set. -/
theorem search_resets_page (q : List Char) (db : List GeneRecord)
    (st st' : AppState) (h : normalizeQuery q ≠ []) :
    (searchStep q db st).1.currentPage = 1 ∧
    searchStep q db st = searchStep q db st' ∧
    ((searchStep q db st).1.filteredData ≠ [] →
      (searchStep q db st).2 =
        DisplayState.resultsTable
          ((searchStep q db st).1.filteredData.take itemsPerPage) 1
          (totalPagesOf (searchStep q db st).1.filteredData.length
            itemsPerPage)) := by
  refine ⟨by simp [searchStep, h], by simp [searchStep, h], ?_⟩
  intro hne
  simp only [searchStep, if_neg h] at hne ⊢
  simp [displayResults, hne, pageSlice]

/-- Witness for C10: the page index moves from 9 back to 1. -/
theorem search_resets_page_witness :
    (searchStep ['x'] [] ⟨[], 9⟩).1.currentPage = 1 :=
  (search_resets_page ['x'] [] ⟨[], 9⟩ ⟨[], 2⟩ (by decide)).1

/-- Input cleanup shared by the toolkit handlers:
`value.trim().toUpperCase().replace(/\s+/g, '')`. -/
def cleanSeq (s : List Char) : List Char :=
  ((trimList s).map Char.toUpper).filter (fun c => !c.isWhitespace)

/-- The complement lookup object `{A:T, T:A, U:A, C:G, G:C}`. -/
def complementTable : List (Char × Char) :=
  [('A', 'T'), ('T', 'A'), ('U', 'A'), ('C', 'G'), ('G', 'C')]

/-- One symbol of `getComplement`'s map: `complement[n] || 'N'`. -/
def complementChar (c : Char) : Char :=
  ((complementTable.find? (fun e => e.1 == c)).map (fun e => e.2)).getD 'N'

/-- `getComplement(seq)`. -/
def getComplement (seq : List Char) : List Char :=
  seq.map complementChar

/-- `getReverseComplement(seq)`: the complement reversed end-to-end. -/
def getReverseComplement (seq : List Char) : List Char :=
  (getComplement seq).reverse

/-- `(seq.match(/[GC]/g) || []).length`. -/
def gcCount (s : List Char) : Nat :=
  (s.filter (fun c => c == 'G' || c == 'C')).length

/-- `(primer.match(/[AT]/g) || []).length`. -/
def atCount (s : List Char) : Nat :=
  (s.filter (fun c => c == 'A' || c == 'T')).length

/-- `calculateTm`: `Math.round(2 * at + 4 * gc)` (already integral). -/
def calculateTm (primer : List Char) : Nat :=
  2 * atCount primer + 4 * gcCount primer

/-- `calculateGC`: `Math.round((gc / seq.length) * 100)`, computed exactly
over ℚ; the NaN produced on an empty sequence is modelled as `none`. -/
def calculateGC (seq : List Char) : Option ℤ :=
  if seq.length = 0 then none
  else some (round (((gcCount seq : ℚ) / (seq.length : ℚ)) * 100))

/-- A designed primer as rendered by `designPrimers`: its sequence with the
melting temperature and GC percentage computed for display. -/
structure Primer where
  sequence : List Char
  tm : Nat
  gc : Option ℤ
deriving DecidableEq

/-- Outcome of `designPrimers`: an aborting alert (empty or too-short
input) with no partial output, or the two designed primers. -/
inductive PrimerOutcome where
  | invalidInput
  | designed (forward reverse : Primer)
deriving DecidableEq

/-- Package one primer sequence with its displayed Tm and GC. -/
def primerOf (s : List Char) : Primer :=
  ⟨s, calculateTm s, calculateGC s⟩

/-- `designPrimers()`: clean the input; abort when empty or shorter than 40
bases; otherwise forward = first 20 bases, reverse = reverse-complement of
the last 20 bases. -/
def designPrimers (input : List Char) : PrimerOutcome :=
  let seq := cleanSeq input
  if seq = [] then .invalidInput
  else if seq.length < 40 then .invalidInput
  else
    let primerLength := 20
    let forwardPrimer := seq.take primerLength
    let reversePrimer :=
      getReverseComplement (seq.drop (seq.length - primerLength))
    .designed (primerOf forwardPrimer) (primerOf reversePrimer)

/-- `seq.replace(/T/g, 'U')`. -/
def toRNA (s : List Char) : List Char :=
  s.map (fun c => if c = 'T' then 'U' else c)

/-- The transcription guard in `translateDNA`:
`if (seq.includes('T')) seq = seq.replace(/T/g, 'U')`. -/
def transcribeGuard (s : List Char) : List Char :=
  if s.contains 'T' then toRNA s else s

/-- The 64-entry codon object of `translateDNA`, in source order. -/
def codonTable : List (List Char × Char) :=
  [(['U','U','U'], 'F'), (['U','U','C'], 'F'), (['U','U','A'], 'L'), (['U','U','G'], 'L'),
   (['C','U','U'], 'L'), (['C','U','C'], 'L'), (['C','U','A'], 'L'), (['C','U','G'], 'L'),
   (['A','U','U'], 'I'), (['A','U','C'], 'I'), (['A','U','A'], 'I'), (['A','U','G'], 'M'),
   (['G','U','U'], 'V'), (['G','U','C'], 'V'), (['G','U','A'], 'V'), (['G','U','G'], 'V'),
   (['U','C','U'], 'S'), (['U','C','C'], 'S'), (['U','C','A'], 'S'), (['U','C','G'], 'S'),
   (['C','C','U'], 'P'), (['C','C','C'], 'P'), (['C','C','A'], 'P'), (['C','C','G'], 'P'),
   (['A','C','U'], 'T'), (['A','C','C'], 'T'), (['A','C','A'], 'T'), (['A','C','G'], 'T'),
   (['G','C','U'], 'A'), (['G','C','C'], 'A'), (['G','C','A'], 'A'), (['G','C','G'], 'A'),
   (['U','A','U'], 'Y'), (['U','A','C'], 'Y'), (['U','A','A'], '*'), (['U','A','G'], '*'),
   (['C','A','U'], 'H'), (['C','A','C'], 'H'), (['C','A','A'], 'Q'), (['C','A','G'], 'Q'),
   (['A','A','U'], 'N'), (['A','A','C'], 'N'), (['A','A','A'], 'K'), (['A','A','G'], 'K'),
   (['G','A','U'], 'D'), (['G','A','C'], 'D'), (['G','A','A'], 'E'), (['G','A','G'], 'E'),
   (['U','G','U'], 'C'), (['U','G','C'], 'C'), (['U','G','A'], '*'), (['U','G','G'], 'W'),
   (['C','G','U'], 'R'), (['C','G','C'], 'R'), (['C','G','A'], 'R'), (['C','G','G'], 'R'),
   (['A','G','U'], 'S'), (['A','G','C'], 'S'), (['A','G','A'], 'R'), (['A','G','G'], 'R'),
   (['G','G','U'], 'G'), (['G','G','C'], 'G'), (['G','G','A'], 'G'), (['G','G','G'], 'G')]

/-- `codonTable[codon]`, `undefined` as `none`. -/
def lookupCodon (c : List Char) : Option Char :=
  (codonTable.find? (fun e => e.1 == c)).map (fun e => e.2)

/-- The translation loop: non-overlapping triplets from position 0, each
mapped through `codonTable[codon] || 'X'`; a trailing partial triplet is
ignored (`i < seq.length - 2`). -/
def translateLoop : List Char → List Char
  | a :: b :: c :: rest => (lookupCodon [a, b, c]).getD 'X' :: translateLoop rest
  | _ => []

/-- `translateDNA()`: clean, abort on empty input, transcribe when a `T`
remains, then translate triplet-wise. -/
def translateDNA (input : List Char) : Option (List Char) :=
  let seq := cleanSeq input
  if seq = [] then none
  else some (translateLoop (transcribeGuard seq))

-- Helper lemmas for the toolkit.

theorem toRNA_eq_self_of_not_contains (s : List Char)
    (h : s.contains 'T' = false) : toRNA s = s := by
  have hmem : 'T' ∉ s := by simpa using h
  clear h
  induction s with
  | nil => rfl
  | cons a t ih =>
    simp only [List.mem_cons, not_or] at hmem
    rw [show toRNA (a :: t) = (if a = 'T' then 'U' else a) :: toRNA t from rfl,
      if_neg (fun e => hmem.1 e.symm), ih hmem.2]

theorem transcribeGuard_eq_toRNA (s : List Char) :
    transcribeGuard s = toRNA s := by
  unfold transcribeGuard
  split
  · rfl
  · rename_i h
    exact (toRNA_eq_self_of_not_contains s (Bool.not_eq_true _ ▸ h)).symm

theorem translateLoop_length : ∀ l : List Char,
    (translateLoop l).length = l.length / 3
  | [] => rfl
  | [_] => by simp [translateLoop]
  | [_, _] => by simp [translateLoop]
  | _ :: _ :: _ :: rest => by
    simp only [translateLoop, List.length_cons, translateLoop_length rest]
    omega

theorem translateLoop_getElem : ∀ (l : List Char) (i : Nat),
    3 * i + 2 < l.length →
    (translateLoop l)[i]? =
      some ((lookupCodon ((l.drop (3 * i)).take 3)).getD 'X')
  | [], i, h => by simp at h
  | [_], i, h => by simp at h
  | [_, _], i, h => by simp at h
  | a :: b :: c :: rest, 0, _ => by simp [translateLoop]
  | a :: b :: c :: rest, i + 1, h => by
    have h' : 3 * i + 2 < rest.length := by
      simp only [List.length_cons] at h; omega
    have hd : (a :: b :: c :: rest).drop (3 * (i + 1)) = rest.drop (3 * i) := by
      rw [show 3 * (i + 1) = 3 * i + 1 + 1 + 1 by ring]
      simp [List.drop_succ_cons]
    rw [show (translateLoop (a :: b :: c :: rest)) =
        (lookupCodon [a, b, c]).getD 'X' :: translateLoop rest from rfl,
      List.getElem?_cons_succ, translateLoop_getElem rest i h', hd]

/-- C5: over the alphabet {A,C,G,T} the reverse complement is an
involution; the complement maps symbols through the fixed table
(A↔T, U→A, C↔G, anything else to N) and preserves length and order. -/
theorem reverseComplement_involutive (s : List Char)
    (h : ∀ c ∈ s, c = 'A' ∨ c = 'C' ∨ c = 'G' ∨ c = 'T') :
    getReverseComplement (getReverseComplement s) = s ∧
    (getComplement s).length = s.length ∧
    complementChar 'A' = 'T' ∧ complementChar 'T' = 'A' ∧
    complementChar 'U' = 'A' ∧ complementChar 'C' = 'G' ∧
    complementChar 'G' = 'C' ∧
    (∀ c : Char, c ≠ 'A' → c ≠ 'T' → c ≠ 'U' → c ≠ 'C' → c ≠ 'G' →
      complementChar c = 'N') := by
  refine ⟨?_, by simp [getComplement], by decide, by decide, by decide,
    by decide, by decide, ?_⟩
  · unfold getReverseComplement getComplement
    rw [List.map_reverse, List.reverse_reverse, List.map_map]
    have hcc : ∀ c ∈ s, (complementChar ∘ complementChar) c = id c := by
      intro c hc
      rcases h c hc with rfl | rfl | rfl | rfl <;> decide
    rw [List.map_congr_left hcc, List.map_id]
  · intro c h1 h2 h3 h4 h5
    have e1 : ('A' == c) = false := beq_eq_false_iff_ne.2 (Ne.symm h1)
    have e2 : ('T' == c) = false := beq_eq_false_iff_ne.2 (Ne.symm h2)
    have e3 : ('U' == c) = false := beq_eq_false_iff_ne.2 (Ne.symm h3)
    have e4 : ('C' == c) = false := beq_eq_false_iff_ne.2 (Ne.symm h4)
    have e5 : ('G' == c) = false := beq_eq_false_iff_ne.2 (Ne.symm h5)
    simp [complementChar, complementTable, List.find?, e1, e2, e3, e4, e5]

/-- Witness for C5 on a concrete ACGT sequence. -/
theorem reverseComplement_involutive_witness :
    getReverseComplement (getReverseComplement ['A', 'C', 'G', 'T', 'T'])
      = ['A', 'C', 'G', 'T', 'T'] :=
  (reverseComplement_involutive ['A', 'C', 'G', 'T', 'T'] (by decide)).1

/-- C8: for non-empty sequences `calculateGC` is the rounded percentage
`round(100 * count(G,C) / length)`; `GGCC` gives 100, `ATAT` gives 0, and
the empty sequence yields no number (callers must guard). -/
theorem calculateGC_formula :
    (∀ s : List Char, s ≠ [] →
      calculateGC s =
        some (round ((100 * (gcCount s : ℚ)) / (s.length : ℚ)))) ∧
    calculateGC ['G', 'G', 'C', 'C'] = some 100 ∧
    calculateGC ['A', 'T', 'A', 'T'] = some 0 ∧
    calculateGC [] = none := by
  refine ⟨?_, ?_, ?_, rfl⟩
  · intro s hs
    have hl : s.length ≠ 0 := by simpa [List.length_eq_zero] using hs
    rw [calculateGC, if_neg hl]
    congr 2
    ring
  · have hg : gcCount ['G', 'G', 'C', 'C'] = 4 := by decide
    simp only [calculateGC, hg, List.length_cons, List.length_nil]
    norm_num [round_eq]
  · have hg : gcCount ['A', 'T', 'A', 'T'] = 0 := by decide
    simp only [calculateGC, hg, List.length_cons, List.length_nil]
    norm_num

/-- Witness for C8 at a concrete non-empty sequence. -/
theorem calculateGC_formula_witness :
    calculateGC ['G', 'C'] =
      some (round ((100 * (gcCount ['G', 'C'] : ℚ)) / (([  'G', 'C'] : List Char).length : ℚ))) :=
  calculateGC_formula.1 ['G', 'C'] (by decide)

/-- C3: `translateDNA` transcribes only when a `T` remains (already
transcribed input passes the guard unchanged), reads non-overlapping
triplets from position 0 ignoring a trailing partial triplet, maps each
codon through the fixed 64-entry table (stop codons to `*`, unknown codons
to `X`), and its output length is `floor(length(transcribed) / 3)`. -/
theorem translateDNA_codons (input : List Char) (h : cleanSeq input ≠ []) :
    translateDNA input
        = some (translateLoop (transcribeGuard (cleanSeq input))) ∧
    (translateLoop (transcribeGuard (cleanSeq input))).length
        = (transcribeGuard (cleanSeq input)).length / 3 ∧
    transcribeGuard (cleanSeq input) = toRNA (cleanSeq input) ∧
    ((cleanSeq input).contains 'T' = false →
      transcribeGuard (cleanSeq input) = cleanSeq input) ∧
    (∀ i : Nat, 3 * i + 2 < (transcribeGuard (cleanSeq input)).length →
      (translateLoop (transcribeGuard (cleanSeq input)))[i]? =
        some ((lookupCodon
          (((transcribeGuard (cleanSeq input)).drop (3 * i)).take 3)).getD
            'X')) ∧
    codonTable.length = 64 ∧
    lookupCodon ['U', 'A', 'A'] = some '*' ∧
    lookupCodon ['U', 'A', 'G'] = some '*' ∧
    lookupCodon ['U', 'G', 'A'] = some '*' := by
  refine ⟨by simp [translateDNA, h], translateLoop_length _,
    transcribeGuard_eq_toRNA _, ?_,
    fun i hi => translateLoop_getElem _ i hi, rfl, rfl, rfl, rfl⟩
  intro hT
  unfold transcribeGuard
  rw [hT]
  simp

/-- Witness for C3 at a concrete DNA sequence. -/
theorem translateDNA_codons_witness :
    translateDNA ['A', 'T', 'G', 'T', 'A', 'A']
      = some (translateLoop
          (transcribeGuard (cleanSeq ['A', 'T', 'G', 'T', 'A', 'A']))) :=
  (translateDNA_codons ['A', 'T', 'G', 'T', 'A', 'A'] (by decide)).1

/-- C4: `designPrimers` aborts with no output on every cleaned sequence
shorter than 40 bases, and on 40 or more bases returns forward = the first
20 bases and reverse = the reverse-complement of the last 20 bases. -/
theorem designPrimers_minLength (input : List Char) :
    ((cleanSeq input).length < 40 →
      designPrimers input = PrimerOutcome.invalidInput) ∧
    (40 ≤ (cleanSeq input).length →
      designPrimers input = PrimerOutcome.designed
        (primerOf ((cleanSeq input).take 20))
        (primerOf (getReverseComplement
          ((cleanSeq input).drop ((cleanSeq input).length - 20))))) := by
  constructor
  · intro h
    unfold designPrimers
    by_cases he : cleanSeq input = []
    · simp [he]
    · simp [he, h]
  · intro h
    have he : cleanSeq input ≠ [] := by
      intro e
      rw [e] at h
      simp at h
    unfold designPrimers
    simp [he, Nat.not_lt.2 h]

/-- Witness for C4: a 39-base sequence fails, a 40-base one succeeds. -/
theorem designPrimers_minLength_witness :
    designPrimers (List.replicate 39 'A') = PrimerOutcome.invalidInput ∧
    designPrimers (List.replicate 40 'A') = PrimerOutcome.designed
      (primerOf ((cleanSeq (List.replicate 40 'A')).take 20))
      (primerOf (getReverseComplement
        ((cleanSeq (List.replicate 40 'A')).drop
          ((cleanSeq (List.replicate 40 'A')).length - 20)))) :=
  ⟨(designPrimers_minLength (List.replicate 39 'A')).1 (by decide),
   (designPrimers_minLength (List.replicate 40 'A')).2 (by decide)⟩

-- Pagination arithmetic helpers.

theorem le_mul_ceilDivNat (n ps : Nat) (hps : 0 < ps) :
    n ≤ ps * ((n + ps - 1) / ps) := by
  have e := Nat.div_add_mod (n + ps - 1) ps
  have hr := Nat.mod_lt (n + ps - 1) hps
  omega

theorem totalPagesOf_eq_ceil (n ps : Nat) (hps : 0 < ps) :
    totalPagesOf n ps = ⌈(n : ℚ) / (ps : ℚ)⌉₊ := by
  have hq : (0 : ℚ) < (ps : ℚ) := by exact_mod_cast hps
  apply le_antisymm
  · rw [totalPagesOf, Nat.div_le_iff_le_mul_add_pred hps]
    have h1 : n ≤ ⌈(n : ℚ) / (ps : ℚ)⌉₊ * ps := by
      have h2 := Nat.le_ceil ((n : ℚ) / (ps : ℚ))
      rw [div_le_iff₀ hq] at h2
      exact_mod_cast h2
    rw [mul_comm] at h1
    omega
  · apply Nat.ceil_le.2
    rw [div_le_iff₀ hq]
    have h3 : n ≤ totalPagesOf n ps * ps := by
      rw [totalPagesOf, mul_comm]
      exact le_mul_ceilDivNat n ps hps
    exact_mod_cast h3

/-- C6: the page count is the ceiling of `totalItems / pageSize`, and the
1-based page `p` holds exactly the items from `(p-1)*pageSize` (0-based) up
to `min(p*pageSize, totalItems)`; `displayResults` renders exactly this
slice for the current page. -/
theorem pagination_slices (l : List GeneRecord) (p ps : Nat) (hps : 0 < ps)
    (hl : l ≠ []) (hp : 1 ≤ p) :
    totalPagesOf l.length ps = ⌈(l.length : ℚ) / (ps : ℚ)⌉₊ ∧
    (pageSlice l p ps).length = min ps (l.length - (p - 1) * ps) ∧
    (∀ i : Nat, (pageSlice l p ps)[i]? =
      if i < ps then l[(p - 1) * ps + i]? else none) ∧
    (∀ st : AppState, st.filteredData ≠ [] →
      displayResults st = DisplayState.resultsTable
        (pageSlice st.filteredData st.currentPage itemsPerPage)
        st.currentPage (totalPagesOf st.filteredData.length itemsPerPage)) := by
  refine ⟨totalPagesOf_eq_ceil l.length ps hps, by simp [pageSlice], ?_, ?_⟩
  · intro i
    by_cases hi : i < ps
    · rw [pageSlice, List.getElem?_take_of_lt hi, List.getElem?_drop, if_pos hi]
    · rw [if_neg hi, List.getElem?_eq_none]
      simp only [pageSlice, List.length_take, List.length_drop]
      omega
  · intro st hst
    simp [displayResults, hst]

/-- Witness for C6 at 25 items with page size 10, page 3. -/
theorem pagination_slices_witness :
    totalPagesOf (List.replicate 25 (⟨none, none, none, none, none, none, none,
        none, none, none, none, none, none, none⟩ : GeneRecord)).length 10
      = ⌈((List.replicate 25 (⟨none, none, none, none, none, none, none, none,
        none, none, none, none, none, none⟩ : GeneRecord)).length : ℚ) / (10 : ℚ)⌉₊ ∧
    (pageSlice (List.replicate 25 (⟨none, none, none, none, none, none, none,
        none, none, none, none, none, none, none⟩ : GeneRecord)) 3 10).length
      = min 10 ((List.replicate 25 (⟨none, none, none, none, none, none, none,
        none, none, none, none, none, none, none⟩ : GeneRecord)).length - (3 - 1) * 10) := by
  have h := pagination_slices (List.replicate 25 (⟨none, none, none, none,
    none, none, none, none, none, none, none, none, none, none⟩ : GeneRecord))
    3 10 (by decide) (by decide) (by decide)
  exact ⟨h.1, h.2.1⟩

/-- The double-quote character used by the CSV quoting. -/
def dq : Char := Char.ofNat 34

/-- `field || ''` in the export row builder: absent (or empty) becomes the
empty string; a truthy non-string would crash `.replace`, modelled `none`. -/
def cellText : Option JsValue → Option (List Char)
  | none => some []
  | some (.str s) => some s
  | some .nonString => none

/-- `.replace(/"/g, '""')`: double every embedded double quote. -/
def escapeQuotes : List Char → List Char
  | [] => []
  | c :: t => (if c = dq then [dq, dq] else [c]) ++ escapeQuotes t

/-- One exported cell: the escaped text wrapped in double quotes. -/
def csvCell (v : Option JsValue) : Option (List Char) :=
  (cellText v).map (fun s => dq :: escapeQuotes s ++ [dq])

/-- The 14 field values of one row in the fixed export column order. -/
def recordCells (r : GeneRecord) : List (Option JsValue) :=
  [r.gene_name, r.variant, r.disease, r.function, r.ad_mechanism,
   r.oxidative_stress, r.angiogenesis, r.neural_survival, r.te_relevance,
   r.scaffold_strategy, r.cell_type, r.growth_factors,
   r.biomaterial_suggestion, r.regeneration_outcome]

/-- The fixed header labels of `exportResults`, in source order. -/
def headers : List (List Char) :=
  [['G','e','n','e',' ','N','a','m','e'],
   ['V','a','r','i','a','n','t'],
   ['D','i','s','e','a','s','e'],
   ['F','u','n','c','t','i','o','n'],
   ['A','D',' ','M','e','c','h','a','n','i','s','m'],
   ['O','x','i','d','a','t','i','v','e',' ','S','t','r','e','s','s'],
   ['A','n','g','i','o','g','e','n','e','s','i','s'],
   ['N','e','u','r','a','l',' ','S','u','r','v','i','v','a','l'],
   ['T','E',' ','R','e','l','e','v','a','n','c','e'],
   ['S','c','a','f','f','o','l','d',' ','S','t','r','a','t','e','g','y'],
   ['C','e','l','l',' ','T','y','p','e'],
   ['G','r','o','w','t','h',' ','F','a','c','t','o','r','s'],
   ['B','i','o','m','a','t','e','r','i','a','l',' ','S','u','g','g','e','s','t','i','o','n'],
   ['R','e','g','e','n','e','r','a','t','i','o','n',' ','O','u','t','c','o','m','e']]

/-- Map a fallible cell builder over a list, failing as soon as one
element fails (the JS `.map` would throw at that element). -/
def mapOrNone {α β : Type} (f : α → Option β) : List α → Option (List β)
  | [] => some []
  | a :: t =>
    match f a, mapOrNone f t with
    | some b, some bs => some (b :: bs)
    | _, _ => none

/-- One data row: the 14 quoted cells joined with commas. -/
def csvRow (r : GeneRecord) : Option (List Char) :=
  (mapOrNone csvCell (recordCells r)).map (List.intercalate [','])

/-- Outcome of `exportResults`: the abort on an empty result set (no file
produced), or the CSV text. -/
inductive ExportOutcome where
  | emptyExport
  | file (content : List Char)
deriving DecidableEq

/-- `exportResults()`: alert-and-abort when `filteredData` is empty;
otherwise the unquoted header line followed by one line per record, joined
with newlines. -/
def exportResults (rows : List GeneRecord) : Option ExportOutcome :=
  if rows = [] then some .emptyExport
  else (mapOrNone csvRow rows).map (fun lines =>
    .file (List.intercalate ['\n']
      (List.intercalate [','] headers :: lines)))

/-- A record whose present fields are all strings: the data-model invariant
under which the export cannot hit a non-string value. -/
def TextualRec (r : GeneRecord) : Prop :=
  ∀ v ∈ recordCells r, v ≠ some JsValue.nonString

-- Export helper lemmas.

theorem escapeQuotes_count (s : List Char) :
    (escapeQuotes s).count dq = 2 * s.count dq := by
  induction s with
  | nil => rfl
  | cons c t ih =>
    rw [show escapeQuotes (c :: t)
        = (if c = dq then [dq, dq] else [c]) ++ escapeQuotes t from rfl,
      List.count_append, ih]
    by_cases hc : c = dq
    · simp [hc, List.count_cons, List.count_nil]
      omega
    · simp [hc, List.count_cons, List.count_nil]

theorem escapeQuotes_filter_ne (s : List Char) :
    (escapeQuotes s).filter (fun c => !(c == dq))
      = s.filter (fun c => !(c == dq)) := by
  induction s with
  | nil => rfl
  | cons c t ih =>
    rw [show escapeQuotes (c :: t)
        = (if c = dq then [dq, dq] else [c]) ++ escapeQuotes t from rfl,
      List.filter_append, ih]
    by_cases hc : c = dq
    · simp [hc, List.filter]
    · have hb : (c == dq) = false := beq_eq_false_iff_ne.2 hc
      rw [if_neg hc]
      simp [List.filter, hb]

theorem csvCell_wrapped (v : Option JsValue) (out : List Char)
    (h : csvCell v = some out) :
    out.head? = some dq ∧ out.getLast? = some dq := by
  have hex : ∃ s : List Char, out = dq :: escapeQuotes s ++ [dq] := by
    cases v with
    | none => exact ⟨[], by simpa [csvCell, cellText] using h.symm⟩
    | some w =>
      cases w with
      | str s => exact ⟨s, by simpa [csvCell, cellText] using h.symm⟩
      | nonString => simp [csvCell, cellText] at h
  rcases hex with ⟨s, rfl⟩
  exact ⟨rfl, List.getLast?_concat _⟩

theorem mapOrNone_isSome {α β : Type} (f : α → Option β) :
    ∀ l : List α, (∀ a ∈ l, f a ≠ none) → (mapOrNone f l).isSome
  | [], _ => rfl
  | a :: t, h => by
    have ha := h a (List.mem_cons_self a t)
    have ht := mapOrNone_isSome f t (fun x hx => h x (List.mem_cons_of_mem a hx))
    rcases Option.ne_none_iff_exists'.1 ha with ⟨b, hb⟩
    rcases Option.isSome_iff_exists.1 ht with ⟨bs, hbs⟩
    simp [mapOrNone, hb, hbs]

theorem csvCell_ne_none (v : Option JsValue)
    (h : v ≠ some JsValue.nonString) : csvCell v ≠ none := by
  cases v with
  | none => simp [csvCell, cellText]
  | some w =>
    cases w with
    | str s => simp [csvCell, cellText]
    | nonString => exact absurd rfl h

theorem csvRow_isSome (r : GeneRecord) (h : TextualRec r) :
    (csvRow r).isSome := by
  rw [csvRow]
  have hs := mapOrNone_isSome csvCell (recordCells r)
    (fun v hv => csvCell_ne_none v (h v hv))
  rcases Option.isSome_iff_exists.1 hs with ⟨bs, hbs⟩
  simp [hbs]

theorem mapOrNone_csvRow_isSome (rows : List GeneRecord)
    (h : ∀ r ∈ rows, TextualRec r) :
    (mapOrNone csvRow rows).isSome :=
  mapOrNone_isSome csvRow rows
    (fun r hr => Option.ne_none_iff_isSome.2 (csvRow_isSome r (h r hr)))

instance decTextualRec (r : GeneRecord) : Decidable (TextualRec r) :=
  inferInstanceAs (Decidable (∀ v ∈ recordCells r, v ≠ some JsValue.nonString))

/-- C7: exporting an empty result list aborts with the empty-export state
and produces no file; otherwise every data cell is wrapped in double quotes
with embedded quotes doubled, an absent field renders as the empty quoted
string, the columns are the fixed 14 in order, and the output is the fixed
header row followed by one line per record. -/
theorem exportResults_csv (rows : List GeneRecord) :
    (rows = [] → exportResults rows = some ExportOutcome.emptyExport ∧
      ∀ t : List Char, ExportOutcome.emptyExport ≠ ExportOutcome.file t) ∧
    csvCell none = some [dq, dq] ∧
    (∀ s : List Char,
      csvCell (some (JsValue.str s)) = some (dq :: escapeQuotes s ++ [dq])) ∧
    (∀ s : List Char, (escapeQuotes s).count dq = 2 * s.count dq ∧
      (escapeQuotes s).filter (fun c => !(c == dq))
        = s.filter (fun c => !(c == dq))) ∧
    (∀ (v : Option JsValue) (out : List Char), csvCell v = some out →
      out.head? = some dq ∧ out.getLast? = some dq) ∧
    headers.length = 14 ∧
    (∀ r : GeneRecord, (recordCells r).length = 14) ∧
    (rows ≠ [] → (∀ r ∈ rows, TextualRec r) →
      (mapOrNone csvRow rows).isSome ∧
      exportResults rows = (mapOrNone csvRow rows).map (fun lines =>
        ExportOutcome.file (List.intercalate ['\n']
          (List.intercalate [','] headers :: lines)))) := by
  refine ⟨?_, rfl, fun s => rfl,
    fun s => ⟨escapeQuotes_count s, escapeQuotes_filter_ne s⟩,
    csvCell_wrapped, rfl, fun r => rfl, ?_⟩
  · intro h
    exact ⟨by simp [exportResults, h], fun t => by simp⟩
  · intro h htext
    exact ⟨mapOrNone_csvRow_isSome rows htext, by simp [exportResults, h]⟩

/-- Witness for C7: the empty export aborts; a one-record export with an
absent `variant` succeeds. -/
theorem exportResults_csv_witness :
    exportResults [] = some ExportOutcome.emptyExport ∧
    (mapOrNone csvRow [(⟨some (JsValue.str ['A']), none, none, none, none,
        none, none, none, none, none, none, none, none, none⟩ :
      GeneRecord)]).isSome :=
  ⟨((exportResults_csv []).1 rfl).1,
   ((exportResults_csv [(⟨some (JsValue.str ['A']), none, none, none, none,
        none, none, none, none, none, none, none, none, none⟩ :
      GeneRecord)]).2.2.2.2.2.2.2 (by decide) (by decide)).1⟩

/-- One item of the page-number strip built by `renderPagination`'s loop:
an interactive page button, or the disabled non-interactive `...` marker. -/
inductive PageItem where
  | page (n : Nat)
  | gapMark
deriving DecidableEq

/-- The loop body of `renderPagination` at index `i`: a page button for the
first page, the last page, and the window `currentPage ± 1`; the ellipsis
marker exactly at `currentPage ± 2`; nothing otherwise. -/
def pageItem (currentPage tp i : Nat) : Option PageItem :=
  if i = 1 ∨ i = tp ∨ (currentPage - 1 ≤ i ∧ i ≤ currentPage + 1) then
    some (.page i)
  else if i = currentPage - 2 ∨ i = currentPage + 2 then some .gapMark
  else none

/-- The page-number strip: `for (let i = 1; i <= totalPages; i++) ...`. -/
def paginationItems (currentPage tp : Nat) : List PageItem :=
  (List.range' 1 tp).filterMap (pageItem currentPage tp)

/-- A page in range that the window hides behind an ellipsis: rendered by
neither branch as a button. -/
def hiddenPage (currentPage tp n : Nat) : Prop :=
  (1 ≤ n ∧ n ≤ tp) ∧
  ¬(n = 1 ∨ n = tp ∨ (currentPage - 1 ≤ n ∧ n ≤ currentPage + 1))

-- Pagination window helper lemmas.

theorem pageItem_eq_page (cp tp i n : Nat) :
    pageItem cp tp i = some (PageItem.page n) ↔
      (i = n ∧ (i = 1 ∨ i = tp ∨ (cp - 1 ≤ i ∧ i ≤ cp + 1))) := by
  unfold pageItem
  split
  · rename_i hs
    simp only [Option.some.injEq, PageItem.page.injEq]
    exact ⟨fun h => ⟨h, hs⟩, fun h => h.1⟩
  · rename_i hs
    split
    · exact iff_of_false (fun h => PageItem.noConfusion (Option.some.inj h))
        (fun h => hs h.2)
    · exact iff_of_false (fun h => Option.noConfusion h) (fun h => hs h.2)

theorem pageItem_eq_gapMark (cp tp i : Nat) :
    pageItem cp tp i = some PageItem.gapMark ↔
      ((i = cp - 2 ∨ i = cp + 2) ∧
        ¬(i = 1 ∨ i = tp ∨ (cp - 1 ≤ i ∧ i ≤ cp + 1))) := by
  unfold pageItem
  split
  · rename_i hs
    exact iff_of_false (fun h => PageItem.noConfusion (Option.some.inj h))
      (fun h => h.2 hs)
  · rename_i hs
    split
    · rename_i hg
      exact iff_of_true rfl ⟨hg, hs⟩
    · rename_i hg
      exact iff_of_false (fun h => Option.noConfusion h) (fun h => hg h.1)

theorem count_gapMark_filterMap (f : Nat → Option PageItem) (l : List Nat) :
    ((l.filterMap f).count PageItem.gapMark)
      = l.countP (fun i => decide (f i = some PageItem.gapMark)) := by
  induction l with
  | nil => rfl
  | cons a t ih =>
    rw [List.filterMap_cons, List.countP_cons]
    cases hf : f a with
    | none => simp [hf, ih]
    | some b =>
      rw [List.count_cons, ih]
      cases b <;> simp [hf]

theorem countP_decide_eq_and (a : Nat) (Q : Nat → Prop) [DecidablePred Q]
    (l : List Nat) (hnd : l.Nodup) :
    l.countP (fun i => decide (i = a ∧ Q i)) = if a ∈ l ∧ Q a then 1 else 0 := by
  induction l with
  | nil => simp
  | cons b t ih =>
    rcases List.nodup_cons.1 hnd with ⟨hb, ht⟩
    rw [List.countP_cons, ih ht]
    by_cases hba : b = a
    · subst hba
      have h0 : ¬(b ∈ t ∧ Q b) := fun hc => hb hc.1
      by_cases hq : Q b
      · have hd : (decide (b = b ∧ Q b)) = true := by simp [hq]
        rw [hd, if_neg h0]
        simp [hq, List.mem_cons]
      · have hd : (decide (b = b ∧ Q b)) = false := by simp [hq]
        rw [hd, if_neg h0]
        simp [hq]
    · have hd : (decide (b = a ∧ Q b)) = false := by
        simp [hba]
      rw [hd]
      have he : (a ∈ b :: t ∧ Q a) ↔ (a ∈ t ∧ Q a) := by
        simp only [List.mem_cons]
        constructor
        · rintro ⟨(rfl | hm), hqa⟩
          · exact absurd rfl hba
          · exact ⟨hm, hqa⟩
        · rintro ⟨hm, hqa⟩
          exact ⟨Or.inr hm, hqa⟩
      rw [if_congr he rfl rfl]
      simp

theorem countP_or_disjoint (p q : Nat → Bool) (l : List Nat)
    (h : ∀ a, ¬(p a = true ∧ q a = true)) :
    l.countP (fun i => p i || q i) = l.countP p + l.countP q := by
  induction l with
  | nil => rfl
  | cons b t ih =>
    rw [List.countP_cons, List.countP_cons, List.countP_cons, ih]
    by_cases hp : p b = true
    · have hq : q b = false := by
        cases hqb : q b
        · rfl
        · exact absurd ⟨hp, hqb⟩ (h b)
      simp [hp, hq]
      omega
    · have hp' : p b = false := by
        cases hpb : p b
        · rfl
        · exact absurd hpb hp
      simp [hp']
      omega

/-- C9: the rendered page-number window consists exactly of the first page,
the last page, and the pages within one of the current page; every other
page collapses into exactly one non-interactive ellipsis marker per
contiguous gap — one marker below the window exactly when pages are hidden
there, one above likewise, and none where nothing is hidden. -/
theorem renderPagination_window (cp tp : Nat) (h1 : 1 ≤ cp) (h2 : cp ≤ tp) :
    (∀ n : Nat, PageItem.page n ∈ paginationItems cp tp ↔
      (1 ≤ n ∧ n ≤ tp ∧ (n = 1 ∨ n = tp ∨ (cp - 1 ≤ n ∧ n ≤ cp + 1)))) ∧
    (paginationItems cp tp).count PageItem.gapMark
      = ((if 4 ≤ cp then 1 else 0) + (if cp + 3 ≤ tp then 1 else 0)) ∧
    ((∃ n, hiddenPage cp tp n ∧ n < cp) ↔ 4 ≤ cp) ∧
    ((∃ n, hiddenPage cp tp n ∧ cp < n) ↔ cp + 3 ≤ tp) := by
  refine ⟨?_, ?_, ?_, ?_⟩
  · intro n
    unfold paginationItems
    rw [List.mem_filterMap]
    constructor
    · rintro ⟨i, hi, hf⟩
      rw [List.mem_range'_1] at hi
      rcases (pageItem_eq_page cp tp i n).1 hf with ⟨rfl, hcond⟩
      exact ⟨hi.1, by omega, hcond⟩
    · rintro ⟨hn1, hn2, hcond⟩
      exact ⟨n, List.mem_range'_1.2 ⟨hn1, by omega⟩,
        (pageItem_eq_page cp tp n n).2 ⟨rfl, hcond⟩⟩
  · unfold paginationItems
    rw [count_gapMark_filterMap]
    have hcong : ∀ i ∈ List.range' 1 tp,
        (decide (pageItem cp tp i = some PageItem.gapMark) = true) ↔
          (((decide (i = cp - 2 ∧
              ¬(i = 1 ∨ i = tp ∨ (cp - 1 ≤ i ∧ i ≤ cp + 1)))) ||
            (decide (i = cp + 2 ∧
              ¬(i = 1 ∨ i = tp ∨ (cp - 1 ≤ i ∧ i ≤ cp + 1))))) = true) := by
      intro i _
      simp only [decide_eq_true_eq, Bool.or_eq_true]
      rw [pageItem_eq_gapMark]
      constructor
      · rintro ⟨(h | h), hns⟩
        · exact Or.inl ⟨h, hns⟩
        · exact Or.inr ⟨h, hns⟩
      · rintro (⟨h, hns⟩ | ⟨h, hns⟩)
        · exact ⟨Or.inl h, hns⟩
        · exact ⟨Or.inr h, hns⟩
    rw [List.countP_congr hcong, countP_or_disjoint _ _ _ (by
      intro a ha
      rcases ha with ⟨ha1, ha2⟩
      rw [decide_eq_true_eq] at ha1 ha2
      omega)]
    rw [countP_decide_eq_and (cp - 2)
        (fun i => ¬(i = 1 ∨ i = tp ∨ (cp - 1 ≤ i ∧ i ≤ cp + 1)))
        (List.range' 1 tp) (List.nodup_range' _ _),
      countP_decide_eq_and (cp + 2)
        (fun i => ¬(i = 1 ∨ i = tp ∨ (cp - 1 ≤ i ∧ i ≤ cp + 1)))
        (List.range' 1 tp) (List.nodup_range' _ _)]
    have e1 : (cp - 2 ∈ List.range' 1 tp ∧
        ¬(cp - 2 = 1 ∨ cp - 2 = tp ∨ (cp - 1 ≤ cp - 2 ∧ cp - 2 ≤ cp + 1)))
        ↔ 4 ≤ cp := by
      rw [List.mem_range'_1]
      omega
    have e2 : (cp + 2 ∈ List.range' 1 tp ∧
        ¬(cp + 2 = 1 ∨ cp + 2 = tp ∨ (cp - 1 ≤ cp + 2 ∧ cp + 2 ≤ cp + 1)))
        ↔ cp + 3 ≤ tp := by
      rw [List.mem_range'_1]
      omega
    rw [if_congr e1 rfl rfl, if_congr e2 rfl rfl]
  · constructor
    · rintro ⟨n, ⟨hr, hns⟩, hlt⟩
      omega
    · intro h4
      refine ⟨2, ⟨⟨by omega, by omega⟩, by omega⟩, by omega⟩
  · constructor
    · rintro ⟨n, ⟨hr, hns⟩, hlt⟩
      omega
    · intro h3
      refine ⟨cp + 2, ⟨⟨by omega, by omega⟩, by omega⟩, by omega⟩

/-- Witness for C9 at current page 5 of 10 total pages: one ellipsis on
each side of the window. -/
theorem renderPagination_window_witness :
    (paginationItems 5 10).count PageItem.gapMark
      = ((if 4 ≤ 5 then 1 else 0) + (if 5 + 3 ≤ 10 then 1 else 0)) :=
  (renderPagination_window 5 10 (by decide) (by decide)).2.1
